import Mathlib

/-!
Verification of the acquisition-and-debounce pipeline of the
Thermopro-TP357 monitor (src/src/main.rs).

The embedding translates the Rust source:
* `Config`, `BleDataPoint`, `AppMessage` mirror the data structures;
* `decodePayload` is the manufacturer-data decoder inlined in
  `bluetooth_scanner` (temperature kept as exact tenths of a degree,
  the information content of the `f32` produced by `i16 / 10.0`);
* `processorGo` is the body of `background_data_processor`, with the
  processing-time clock (`Instant::now()`) modelled in milliseconds,
  `duration_since(..).as_secs()` as truncating division by 1000, and
  channel sends drawing success/failure from an oracle list (an empty
  oracle means every send succeeds, matching `List.headD _ true`);
* the scanner loop and the CSV log follow further down.
-/

namespace TP357

/-- `struct Config` (main.rs lines 31-41).  The two `f32` warning
thresholds `temp_warn_high` / `temp_warn_low` are consumed only by the
excluded presentation layer and are omitted from the embedding. -/
structure Config where
  target_mac : String
  scan_timeout_secs : Nat
  scan_pause_secs : Nat
  duplicate_threshold_secs : Nat
  continuous_mode : Bool
  load_all_history : Bool
  deriving Repr, DecidableEq

/-- `struct BleDataPoint` (main.rs line 61).  `temp : f32` always holds an
exact multiple of 0.1, so it is embedded as `tempTenths : Int` with
`temp = tempTenths / 10`. -/
structure BleDataPoint where
  timestamp : Nat
  tempTenths : Int
  hum : Nat
  device_id : String
  rssi : Option Int
  raw_data : List Nat
  deriving Repr, DecidableEq

/-- `enum AppMessage` (main.rs line 62). -/
inductive AppMessage where
  | NewData (d : BleDataPoint)
  | StatusUpdate (s : String)
  | CsvWriteStatus (ok : Bool)
  deriving Repr, DecidableEq

/-- Two's-complement reinterpretation of a 16-bit value (`as i16`). -/
def toSigned16 (n : Nat) : Int :=
  if n % 65536 < 32768 then ((n % 65536 : Nat) : Int)
  else ((n % 65536 : Nat) : Int) - 65536

/-- `i16::from_le_bytes([lo, hi])`: the first byte is the low byte. -/
def i16_from_le_bytes (lo hi : Nat) : Int :=
  toSigned16 (lo % 256 + 256 * (hi % 256))

/-- The payload decoder inlined in `bluetooth_scanner`
(main.rs lines 471-480): take the first manufacturer-data entry
`(company_id, data)`; require `data.len() >= 2`; temperature tenths are
`i16::from_le_bytes([(company_id >> 8) as u8, data[0]])`, humidity is
`data[1]` unchecked. -/
def decodePayload (md : List (Nat × List Nat)) : Option (Int × Nat) :=
  match md with
  | [] => none
  | (companyId, data) :: _ =>
    match data with
    | b0 :: b1 :: _ => some (i16_from_le_bytes (companyId / 256 % 256) b0, b1)
    | _ => none

/-! ## Debounce/Persistence stage (`background_data_processor`, lines 399-428) -/

/-- One inbound message together with the ambient effects sampled while
processing it: `nowMs` is `Instant::now()` in milliseconds, `threshold`
is `config.duplicate_threshold_secs` read under the shared-config lock,
and `writeOk` is the outcome `log_to_csv(..).is_ok()` would have. -/
structure ProcInput where
  msg : AppMessage
  nowMs : Nat
  threshold : Nat
  writeOk : Bool
  deriving Repr, DecidableEq

/-- The acceptance test of the processor:
`last_save_time.map_or(true, |last| now.duration_since(last).as_secs() >= config.duplicate_threshold_secs)`. -/
def shouldSave (last : Option Nat) (nowMs threshold : Nat) : Bool :=
  match last with
  | none => true
  | some l => decide (threshold ≤ (nowMs - l) / 1000)

/-- Observable result of a processor run: `outs` are the messages offered
to the GUI channel in order, `final` is `last_save_time` when the run
stops, `writes` lists the `log_to_csv` invocations (temperature tenths,
humidity), `accepted` the processing times of accepted readings. -/
structure ProcResult where
  outs : List AppMessage
  final : Option Nat
  writes : List (Int × Nat)
  accepted : List Nat
  deriving Repr, DecidableEq

/-- The loop body of `background_data_processor`.  `sendOk` is the oracle
of channel-send outcomes, one entry consumed per send attempt (an
exhausted oracle means the send succeeds).  A failed `NewData` or
`StatusUpdate` send breaks the loop; the `CsvWriteStatus` send result is
discarded (`let _ = tx.send(..)`). -/
def processorGo (last : Option Nat) (sendOk : List Bool) :
    List ProcInput → ProcResult
  | [] => ⟨[], last, [], []⟩
  | i :: rest =>
    match i.msg with
    | AppMessage.NewData d =>
      if shouldSave last i.nowMs i.threshold then
        if sendOk.tail.headD true then
          let r := processorGo (some i.nowMs) sendOk.tail.tail rest
          ⟨AppMessage.CsvWriteStatus i.writeOk :: AppMessage.NewData d :: r.outs,
           r.final, (d.tempTenths, d.hum) :: r.writes, i.nowMs :: r.accepted⟩
        else
          ⟨[AppMessage.CsvWriteStatus i.writeOk, AppMessage.NewData d],
           some i.nowMs, [(d.tempTenths, d.hum)], [i.nowMs]⟩
      else processorGo last sendOk rest
    | AppMessage.StatusUpdate s =>
      if sendOk.headD true then
        let r := processorGo last sendOk.tail rest
        ⟨AppMessage.StatusUpdate s :: r.outs, r.final, r.writes, r.accepted⟩
      else ⟨[AppMessage.StatusUpdate s], last, [], []⟩
    | AppMessage.CsvWriteStatus _ => processorGo last sendOk rest

/-- Modelled from the spec: the greedy debounce selection with threshold
`d` seconds — a reading at time `t` (milliseconds) is accepted iff no
prior reading was accepted or at least `d` seconds have elapsed since
the previously accepted reading. -/
def greedyAccept (d : Nat) : Option Nat → List Nat → List Nat
  | _, [] => []
  | none, t :: ts => t :: greedyAccept d (some t) ts
  | some l, t :: ts =>
    if 1000 * d ≤ t - l then t :: greedyAccept d (some t) ts
    else greedyAccept d (some l) ts

/-- A sample decoded reading used to instantiate the claims. -/
def dpA : BleDataPoint := ⟨0, 235, 45, "", none, [235, 45]⟩

/-- The five-reading scenario of claim C2: processing times 0s, 10s, 20s,
35s, 60s (in milliseconds), threshold 30 s, all writes succeeding. -/
def c2Inputs : List ProcInput :=
  [⟨AppMessage.NewData dpA, 0, 30, true⟩,
   ⟨AppMessage.NewData dpA, 10000, 30, true⟩,
   ⟨AppMessage.NewData dpA, 20000, 30, true⟩,
   ⟨AppMessage.NewData dpA, 35000, 30, true⟩,
   ⟨AppMessage.NewData dpA, 60000, 30, true⟩]

/-- Two processor inputs that agree on everything except the outcome of
the log write. -/
def sameButWrite (a b : ProcInput) : Prop :=
  a.msg = b.msg ∧ a.nowMs = b.nowMs ∧ a.threshold = b.threshold

/-! ## Scan loop (`bluetooth_scanner`, main.rs lines 443-496) -/

/-- The advertised properties of a resolved peripheral
(`PeripheralProperties`): address, manufacturer-data map (embedded as an
association list, `.iter().next()` taking its head), signal strength. -/
structure PeriphProps where
  address : String
  manufacturer_data : List (Nat × List Nat)
  rssi : Option Int
  deriving Repr, DecidableEq

/-- One `DeviceDiscovered`/`DeviceUpdated` event of the scan window.
`props` collapses `central.peripheral(&id)` plus `p.properties()` into
an `Option` (`none` when either fails); `time` is `Local::now()` at the
event (capture timestamp, seconds). -/
structure ScanEvent where
  id : String
  props : Option PeriphProps
  time : Nat
  deriving Repr, DecidableEq

/-- `u8::to_ascii_lowercase` on a character. -/
def asciiLower (c : Char) : Char :=
  if 'A' ≤ c ∧ c ≤ 'Z' then Char.ofNat (c.toNat + 32) else c

/-- `str::eq_ignore_ascii_case`. -/
def eqIgnoreAsciiCase (s t : String) : Bool :=
  s.data.map asciiLower == t.data.map asciiLower

/-- The per-event body of the scan window (main.rs lines 466-480):
resolve the peripheral, compare its address case-insensitively with the
configured target, decode the first manufacturer-data entry, and build
the `BleDataPoint`. -/
def eventReading (cfg : Config) (e : ScanEvent) : Option BleDataPoint :=
  match e.props with
  | none => none
  | some props =>
    if eqIgnoreAsciiCase props.address cfg.target_mac then
      match props.manufacturer_data with
      | [] => none
      | (_, data) :: _ =>
        match decodePayload props.manufacturer_data with
        | none => none
        | some th => some ⟨e.time, th.1, th.2, e.id, props.rssi, data⟩
    else none

/-- Why the event loop of one scan window stopped. -/
inductive ScanExit where
  | channelClosed
  | earlyReturn
  | streamEnded
  deriving Repr, DecidableEq

/-- The event loop inside `tokio::time::timeout` (main.rs lines 463-486).
The event list models the events that arrive before the deadline.  Each
emission attempts a channel send (oracle `s`, exhausted oracle = send
succeeds): on failure the loop breaks (`channelClosed`); on success in
non-continuous mode it returns at once (`earlyReturn`); otherwise it
continues until the stream/deadline ends (`streamEnded`).  Returns the
attempted sends, the remaining oracle and the exit kind. -/
def processEvents (cfg : Config) :
    List Bool → List ScanEvent → List AppMessage × List Bool × ScanExit
  | s, [] => ([], s, ScanExit.streamEnded)
  | s, e :: rest =>
    match eventReading cfg e with
    | none => processEvents cfg s rest
    | some d =>
      if s.headD true then
        if cfg.continuous_mode then
          let r := processEvents cfg s.tail rest
          (AppMessage.NewData d :: r.1, r.2.1, r.2.2)
        else ([AppMessage.NewData d], s.tail, ScanExit.earlyReturn)
      else ([AppMessage.NewData d], s.tail, ScanExit.channelClosed)

/-- `let scan_duration = if continuous_mode { 60 } else { scan_timeout_secs }`. -/
def scanDurationSecs (cfg : Config) : Nat :=
  if cfg.continuous_mode then 60 else cfg.scan_timeout_secs

/-- The sleep at the end of a cycle (also after a manager-open failure):
`if continuous_mode { 1 } else { scan_pause_secs }`. -/
def pauseSecs (cfg : Config) : Nat :=
  if cfg.continuous_mode then 1 else cfg.scan_pause_secs

def adapterErrorStatus : String := "Chyba: BT adaptér nenalezen"

def waitingStatus : String := "Čekám..."

def scanningStatus (cfg : Config) : String :=
  if cfg.continuous_mode then "Skenuji (kontinuální režim)..." else "Skenuji..."

/-- The environment one cycle of the outer loop runs against: the
configuration snapshot read at the top of the cycle, whether
`Manager::new()` succeeds, whether an adapter is enumerated, whether
`start_scan` succeeds, and the events observed before the deadline. -/
structure CycleEnv where
  config : Config
  managerOk : Bool
  hasAdapter : Bool
  startScanOk : Bool
  events : List ScanEvent
  deriving Repr, DecidableEq

/-- One iteration of the outer `loop` of `bluetooth_scanner`: returns
the attempted sends of the cycle, the remaining send oracle, and the
sleep (seconds) performed at the end of the cycle. -/
def scanCycle (env : CycleEnv) (s : List Bool) :
    List AppMessage × List Bool × Nat :=
  if env.managerOk then
    let p :=
      if env.hasAdapter then
        if env.startScanOk then
          let r := processEvents env.config s.tail env.events
          (AppMessage.StatusUpdate (scanningStatus env.config) :: r.1, r.2.1)
        else ([AppMessage.StatusUpdate (scanningStatus env.config)], s.tail)
      else ([], s)
    (p.1 ++ [AppMessage.StatusUpdate waitingStatus], p.2.tail, pauseSecs env.config)
  else
    ([AppMessage.StatusUpdate adapterErrorStatus], s.tail, pauseSecs env.config)

/-- The outer `loop` over a list of cycle environments.  The Rust loop
has no `break` or `return`: every environment yields a cycle. -/
def scannerRun : List Bool → List CycleEnv → List (List AppMessage × Nat)
  | _, [] => []
  | s, env :: rest =>
    let c := scanCycle env s
    (c.1, c.2.2) :: scannerRun c.2.1 rest

/-- The readings among a message list. -/
def newDataOf (msgs : List AppMessage) : List BleDataPoint :=
  msgs.filterMap fun m =>
    match m with
    | AppMessage.NewData d => some d
    | _ => none

/-- Concrete scenario for C6/C9: continuous mode, target `aa:bb`. -/
def cfgX : Config := ⟨"aa:bb", 20, 20, 30, true, true⟩

/-- A matching advertisement event (address differs only in ASCII case,
company id 256, payload `[0, 50]`). -/
def evX : ScanEvent := ⟨"dev", some ⟨"AA:BB", [(256, [0, 50])], none⟩, 7⟩

/-- The reading decoded from `evX`. -/
def dpX : BleDataPoint := ⟨7, 1, 50, "dev", none, [0, 50]⟩

/-- A cycle whose scan window sees exactly `evX`. -/
def envX1 : CycleEnv := ⟨cfgX, true, true, true, [evX]⟩

/-- A cycle whose manager open fails. -/
def envX2 : CycleEnv := ⟨cfgX, false, true, true, []⟩

/-! ## Daily CSV log (`log_to_csv`, `get_daily_log_filename`,
`load_history_from_csv`, main.rs lines 310, 350-389)

The csv crate with delimiter `b';'` writes one record per line and (by
its default `has_headers`) skips the first record when reading, so a
file is embedded as the list of its records, each record being the list
of its fields.  Decimal formatting and parsing of numbers is modelled on
exact values: `temp : f32` always holds an exact multiple of 0.1 (the
decoder produces `i16 / 10.0`), for which `format!("{:.1}", _)` and
`str::parse::<f32>` are exact. -/

/-- The decimal digit characters. -/
def digitChar : Nat → Char
  | 0 => '0'
  | 1 => '1'
  | 2 => '2'
  | 3 => '3'
  | 4 => '4'
  | 5 => '5'
  | 6 => '6'
  | 7 => '7'
  | 8 => '8'
  | _ => '9'

/-- Standard decimal rendering of a natural number (`to_string`). -/
def natToStr (n : Nat) : String :=
  if n = 0 then "0" else ⟨((Nat.digits 10 n).map digitChar).reverse⟩

/-- `format!("{:.1}", temp).replace('.', ",")` for `temp = t / 10`
exactly: optional minus sign, integer part, comma, one decimal digit. -/
def fmtTenths (t : Int) : String :=
  (if t < 0 then "-" else "") ++ natToStr (t.natAbs / 10) ++ ","
    ++ String.singleton (digitChar (t.natAbs % 10))

/-- Zero-padding to two digits (chrono `%m`, `%d`, `%H`, `%M`, `%S`). -/
def pad2 (n : Nat) : String :=
  if n < 10 then "0" ++ natToStr n else natToStr n

/-- Zero-padding to four digits (chrono `%Y` for common-era years). -/
def pad4 (n : Nat) : String :=
  if n < 10 then "000" ++ natToStr n
  else if n < 100 then "00" ++ natToStr n
  else if n < 1000 then "0" ++ natToStr n
  else natToStr n

/-- A wall-clock instant at second resolution (`chrono::Local` values as
used by the logger: the formatted fields only). -/
structure LocalTime where
  year : Nat
  month : Nat
  day : Nat
  hour : Nat
  minute : Nat
  second : Nat
  deriving Repr, DecidableEq

/-- Field values a `Local::now()` result can take (and under which
`%Y.%m.%d %H:%M:%S` uses fixed widths). -/
def LocalTime.Valid (tm : LocalTime) : Prop :=
  tm.year < 10000 ∧ 1 ≤ tm.month ∧ tm.month ≤ 12 ∧ 1 ≤ tm.day ∧ tm.day ≤ 31
    ∧ tm.hour ≤ 23 ∧ tm.minute ≤ 59 ∧ tm.second ≤ 59

instance (tm : LocalTime) : Decidable tm.Valid := by
  unfold LocalTime.Valid; infer_instance

/-- `now.format("%Y.%m.%d")`. -/
def fmtDate (tm : LocalTime) : String :=
  pad4 tm.year ++ "." ++ pad2 tm.month ++ "." ++ pad2 tm.day

/-- `now.format("%H:%M:%S")`. -/
def fmtTime (tm : LocalTime) : String :=
  pad2 tm.hour ++ ":" ++ pad2 tm.minute ++ ":" ++ pad2 tm.second

/-- `get_daily_log_filename` (main.rs line 310):
`Local::now().format("log_%Y-%m-%d.csv")`. -/
def get_daily_log_filename (tm : LocalTime) : String :=
  "log_" ++ pad4 tm.year ++ "-" ++ pad2 tm.month ++ "-" ++ pad2 tm.day ++ ".csv"

/-- The header record written on first creation. -/
def csvHeader : List String := ["Datum", "Cas", "Teplota", "Vlhkost"]

/-- The data record `log_to_csv` writes for one accepted reading. -/
def logRecord (tm : LocalTime) (t : Int) (hum : Nat) : List String :=
  [fmtDate tm, fmtTime tm, fmtTenths t, natToStr hum]

/-- `log_to_csv` (main.rs lines 350-358): the file (`none` = absent) is
opened with `append(true).create(true)`; the header is written only when
the file did not exist; then exactly one record is appended. -/
def log_to_csv (file : Option (List (List String))) (tm : LocalTime)
    (t : Int) (hum : Nat) : List (List String) :=
  match file with
  | none => [csvHeader, logRecord tm t hum]
  | some rows => rows ++ [logRecord tm t hum]

/-- ASCII decimal digit test. -/
def isDigitCh (c : Char) : Bool :=
  decide ('0' ≤ c ∧ c ≤ '9')

/-- Value of a digit character. -/
def digitVal (c : Char) : Nat := c.toNat - 48

/-- Value of a most-significant-first digit string. -/
def digitsToNat (cs : List Char) : Nat :=
  cs.foldl (fun a c => 10 * a + digitVal c) 0

/-- Model of `str::parse::<u8>` on the strings at hand: plain decimal
digits with a range check. -/
def parseU8 (s : String) : Option Nat :=
  if s.data ≠ [] ∧ (∀ c ∈ s.data, isDigitCh c = true) then
    if digitsToNat s.data < 256 then some (digitsToNat s.data) else none
  else none

/-- Model of `str::parse::<f32>` on plain decimal numerals (optional
sign, digits, optional dot and fraction digits), with the exact rational
value (`f32` rounding is exact on the tenths values at hand). -/
def parseDecimalQ (s : String) : Option ℚ :=
  match s.data with
  | [] => none
  | c :: cs =>
    let sign : ℚ := if c = '-' then -1 else 1
    let cs2 : List Char := if c = '-' ∨ c = '+' then cs else c :: cs
    let intPart := cs2.takeWhile isDigitCh
    let rest := cs2.dropWhile isDigitCh
    match rest with
    | [] => if intPart = [] then none else some (sign * (digitsToNat intPart : ℚ))
    | r :: frac =>
      if r = '.' ∧ (∀ ch ∈ frac, isDigitCh ch = true)
          ∧ (intPart ≠ [] ∨ frac ≠ []) then
        some (sign * ((digitsToNat intPart : ℚ)
          + (digitsToNat frac : ℚ) / (10 : ℚ) ^ frac.length))
      else none

/-- `temp_str.replace(',', ".")`. -/
def replaceCommaDot (s : String) : String :=
  ⟨s.data.map (fun c => if c = ',' then '.' else c)⟩

/-- Model of `NaiveDateTime::parse_from_str(_, "%Y.%m.%d %H:%M:%S")`:
fixed-width numeric fields with separators and range checks (chrono also
rejects day numbers invalid for the given month; that refinement is not
needed by the rows the logger writes). -/
def parseDateTime (s : String) : Option LocalTime :=
  match s.data with
  | [y1, y2, y3, y4, c1, m1, m2, c2, d1, d2, sp, h1, h2, c3, n1, n2, c4, s1, s2] =>
    if c1 = '.' ∧ c2 = '.' ∧ sp = ' ' ∧ c3 = ':' ∧ c4 = ':'
        ∧ (∀ ch ∈ [y1, y2, y3, y4, m1, m2, d1, d2, h1, h2, n1, n2, s1, s2],
            isDigitCh ch = true) then
      let y := digitsToNat [y1, y2, y3, y4]
      let mo := digitsToNat [m1, m2]
      let da := digitsToNat [d1, d2]
      let ho := digitsToNat [h1, h2]
      let mi := digitsToNat [n1, n2]
      let se := digitsToNat [s1, s2]
      if 1 ≤ mo ∧ mo ≤ 12 ∧ 1 ≤ da ∧ da ≤ 31 ∧ ho ≤ 23 ∧ mi ≤ 59 ∧ se ≤ 59 then
        some ⟨y, mo, da, ho, mi, se⟩
      else none
    else none
  | _ => none

/-- `struct HistoryPoint` (main.rs line 59), temperature as its exact
rational value. -/
structure HistoryPoint where
  timestamp : LocalTime
  tempQ : ℚ
  hum : Nat
  deriving Repr, DecidableEq

/-- The per-record body of `load_history_from_csv` (main.rs lines
376-385): fields 0-3, datetime parse, temperature parse after comma
replacement, humidity parse; any failure skips the record. -/
def loadRow (rec : List String) : Option HistoryPoint :=
  match rec[0]?, rec[1]?, rec[2]?, rec[3]? with
  | some dateStr, some timeStr, some tempStr, some humStr =>
    match parseDateTime (dateStr ++ " " ++ timeStr) with
    | none => none
    | some tm =>
      match parseDecimalQ (replaceCommaDot tempStr), parseU8 humStr with
      | some temp, some hum => some ⟨tm, temp, hum⟩
      | _, _ => none
  | _, _, _, _ => none

/-- `load_history_from_csv` (main.rs lines 360-389) on an existing file:
the csv reader consumes the header record, then either all records or
only the last `MAX_HISTORY_POINTS = 200` are loaded, each through
`loadRow`. -/
def load_history_from_csv (cfg : Config) (file : List (List String)) :
    List HistoryPoint :=
  let records := file.drop 1
  let toLoad := if cfg.load_all_history then records
                else records.drop (records.length - 200)
  toLoad.filterMap loadRow

/-- The concrete clock instant used by the counterexamples/witnesses. -/
def tmW : LocalTime := ⟨2024, 3, 7, 1, 2, 3⟩

theorem shouldSave_eq_greedyCond (l t d : Nat) :
    shouldSave (some l) t d = decide (1000 * d ≤ t - l) := by
  simp only [shouldSave, decide_eq_decide]
  rw [Nat.le_div_iff_mul_le (by norm_num : 0 < 1000)]
  constructor <;> intro h <;> omega

theorem processor_accepted_eq_greedy (d : Nat) :
    ∀ (inputs : List ProcInput) (last : Option Nat),
      (∀ i ∈ inputs, (∃ dp, i.msg = AppMessage.NewData dp) ∧ i.threshold = d) →
      (processorGo last [] inputs).accepted
        = greedyAccept d last (inputs.map (fun i => i.nowMs)) := by
  intro inputs
  induction inputs with
  | nil => intro last _; simp [processorGo, greedyAccept]
  | cons i rest ih =>
    intro last h
    obtain ⟨⟨dp, hdp⟩, hthr⟩ := h i (List.mem_cons_self _ _)
    have hrest : ∀ j ∈ rest, (∃ dp, j.msg = AppMessage.NewData dp) ∧ j.threshold = d :=
      fun j hj => h j (List.mem_cons_of_mem _ hj)
    cases last with
    | none =>
      simp only [processorGo, hdp, shouldSave, List.tail_nil, List.headD_nil, if_true,
        List.map_cons, greedyAccept]
      exact congrArg _ (ih _ hrest)
    | some l =>
      simp only [processorGo, hdp, List.map_cons, greedyAccept, hthr,
        shouldSave_eq_greedyCond]
      by_cases hc : 1000 * d ≤ i.nowMs - l
      · simp only [hc, decide_True, if_true, List.tail_nil, List.headD_nil]
        exact congrArg _ (ih _ hrest)
      · simp only [hc, decide_False, if_false]
        exact ih _ hrest

/-- C1: with duplicate threshold `d`, the set of accepted readings of the
Debounce/Persistence Stage is exactly the greedy selection (accept iff no
prior accepted reading, or at least `d` seconds of processing-time clock
since the previously accepted one), and a suppressed reading causes no
log write, no forward, and leaves `last_save_time` unchanged (the step is
the identity on every observable). -/
theorem claim_C1_debounce_greedy (d : Nat) (inputs : List ProcInput)
    (h : ∀ i ∈ inputs, (∃ dp, i.msg = AppMessage.NewData dp) ∧ i.threshold = d)
    (last : Option Nat) (s : List Bool) (i : ProcInput) (rest : List ProcInput)
    (dp : BleDataPoint) (hdp : i.msg = AppMessage.NewData dp)
    (hsup : shouldSave last i.nowMs i.threshold = false) :
    (processorGo none [] inputs).accepted
        = greedyAccept d none (inputs.map (fun j => j.nowMs))
    ∧ processorGo last s (i :: rest) = processorGo last s rest := by
  refine ⟨processor_accepted_eq_greedy d inputs none h, ?_⟩
  simp [processorGo, hdp, hsup]

theorem claim_C1_witness :
    (processorGo none []
        [⟨AppMessage.NewData dpA, 0, 30, true⟩,
         ⟨AppMessage.NewData dpA, 10000, 30, true⟩]).accepted
      = greedyAccept 30 none
          ([⟨AppMessage.NewData dpA, 0, 30, true⟩,
            (⟨AppMessage.NewData dpA, 10000, 30, true⟩ : ProcInput)].map
            (fun j => j.nowMs))
    ∧ processorGo (some 0) []
        (⟨AppMessage.NewData dpA, 10000, 30, true⟩ :: [])
      = processorGo (some 0) [] [] :=
  claim_C1_debounce_greedy 30 _
    (by
      intro i hi
      simp only [List.mem_cons, List.not_mem_nil, or_false] at hi
      rcases hi with h1 | h2
      · subst h1; exact ⟨⟨dpA, rfl⟩, rfl⟩
      · subst h2; exact ⟨⟨dpA, rfl⟩, rfl⟩)
    (some 0) [] ⟨AppMessage.NewData dpA, 10000, 30, true⟩ [] dpA rfl (by decide)

/-- C2 as stated is false: with threshold 30 s and processing times
0 s, 10 s, 20 s, 35 s, 60 s the code suppresses the 60 s reading
(60 − 35 = 25 < 30), so the accepted times are not 0 s, 35 s, 60 s. -/
theorem claim_C2_counterexample :
    (processorGo none [] c2Inputs).accepted ≠ [0, 35000, 60000] := by decide

/-- C2 (amended): with duplicate threshold 30 s and readings arriving at
0 s, 10 s, 20 s, 35 s, 60 s, the stage accepts exactly the readings at
0 s and 35 s — the 10 s, 20 s and 60 s readings are suppressed (60 s
because 60 − 35 = 25 < 30), and exactly the two accepted readings are
forwarded. -/
theorem claim_C2_amended :
    (processorGo none [] c2Inputs).accepted = [0, 35000]
    ∧ (processorGo none [] c2Inputs).outs
        = [AppMessage.CsvWriteStatus true, AppMessage.NewData dpA,
           AppMessage.CsvWriteStatus true, AppMessage.NewData dpA] := by decide

/-- C3: the payload decoder yields a reading iff the manufacturer-data
map is non-empty and the first entry has at least two bytes; on success
the temperature tenths equal the signed 16-bit little-endian integer
built from the company id's high byte (low byte) and `b0` (high byte) —
so the temperature is that integer divided by 10 — and the humidity is
`b1` unchecked. -/
theorem claim_C3_decoder :
    (∀ md : List (Nat × List Nat),
        (decodePayload md).isSome = true ↔
          ∃ c bs rest, md = (c, bs) :: rest ∧ 2 ≤ bs.length)
    ∧ (∀ (c b0 b1 : Nat) (bs : List Nat) (rest : List (Nat × List Nat)),
        decodePayload ((c, b0 :: b1 :: bs) :: rest)
          = some (i16_from_le_bytes (c / 256 % 256) b0, b1)
        ∧ ((i16_from_le_bytes (c / 256 % 256) b0 : ℚ) / 10 : ℚ)
            = (i16_from_le_bytes (c / 256 % 256) b0 : ℚ) / 10) := by
  constructor
  · intro md
    match md with
    | [] => simp [decodePayload]
    | (c, []) :: tl => simp [decodePayload]
    | (c, [b0]) :: tl => simp [decodePayload]
    | (c, b0 :: b1 :: bs) :: tl =>
      simp only [decodePayload, Option.isSome_some, true_iff]
      exact ⟨c, b0 :: b1 :: bs, tl, rfl, by simp⟩
  · intro c b0 b1 bs rest
    exact ⟨rfl, rfl⟩

theorem processor_indep_writeOk :
    ∀ (xs ys : List ProcInput), List.Forall₂ sameButWrite xs ys →
    ∀ (last : Option Nat) (s : List Bool),
      (processorGo last s xs).accepted = (processorGo last s ys).accepted
      ∧ (processorGo last s xs).final = (processorGo last s ys).final
      ∧ (processorGo last s xs).writes = (processorGo last s ys).writes := by
  intro xs ys h
  induction h with
  | nil => intro last s; simp [processorGo]
  | @cons a b xs ys hab htl ih =>
    intro last s
    obtain ⟨hmsg, hnow, hthr⟩ := hab
    obtain ⟨am, an, ath, aw⟩ := a
    obtain ⟨bm, bn, bt, bw⟩ := b
    have hm2 : am = bm := hmsg
    have hn2 : an = bn := hnow
    have ht2 : ath = bt := hthr
    subst hm2; subst hn2; subst ht2
    cases am with
    | NewData dp =>
      cases hs : shouldSave last an ath with
      | true =>
        cases hok : s.tail.headD true with
        | true =>
          simp only [processorGo, hs, hok, if_true]
          exact ⟨congrArg _ (ih _ _).1, (ih _ _).2.1, congrArg _ (ih _ _).2.2⟩
        | false => simp only [processorGo, hs, hok]; exact ⟨rfl, rfl, rfl⟩
      | false =>
        simp only [processorGo, hs]
        exact ih last s
    | StatusUpdate st =>
      cases hok : s.headD true with
      | true =>
        simp only [processorGo, hok, if_true]
        exact ⟨(ih _ _).1, (ih _ _).2.1, (ih _ _).2.2⟩
      | false => simp only [processorGo, hok]; exact ⟨rfl, rfl, rfl⟩
    | CsvWriteStatus ok =>
      simp only [processorGo]
      exact ih last s

/-- C4: for an accepted reading the stage writes once (no retry), emits
exactly one boolean `CsvWriteStatus` carrying the outcome, updates
`last_save_time` to the processing time whatever the outcome, and
forwards the reading; and the accepted set, final state and write
sequence of a run never depend on the write outcomes. -/
theorem claim_C4_persistence (last : Option Nat) (i : ProcInput)
    (dp : BleDataPoint) (rest : List ProcInput)
    (hmsg : i.msg = AppMessage.NewData dp)
    (hsave : shouldSave last i.nowMs i.threshold = true)
    (xs ys : List ProcInput) (s : List Bool)
    (hsame : List.Forall₂ sameButWrite xs ys) :
    processorGo last [] (i :: rest)
      = ⟨AppMessage.CsvWriteStatus i.writeOk :: AppMessage.NewData dp ::
           (processorGo (some i.nowMs) [] rest).outs,
         (processorGo (some i.nowMs) [] rest).final,
         (dp.tempTenths, dp.hum) :: (processorGo (some i.nowMs) [] rest).writes,
         i.nowMs :: (processorGo (some i.nowMs) [] rest).accepted⟩
    ∧ (processorGo last s xs).accepted = (processorGo last s ys).accepted
    ∧ (processorGo last s xs).final = (processorGo last s ys).final
    ∧ (processorGo last s xs).writes = (processorGo last s ys).writes := by
  refine ⟨?_, processor_indep_writeOk xs ys hsame last s⟩
  simp [processorGo, hmsg, hsave]

theorem claim_C4_witness :
    processorGo none [] (⟨AppMessage.NewData dpA, 5000, 30, false⟩ :: [])
      = ⟨AppMessage.CsvWriteStatus false :: AppMessage.NewData dpA ::
           (processorGo (some 5000) [] []).outs,
         (processorGo (some 5000) [] []).final,
         (dpA.tempTenths, dpA.hum) :: (processorGo (some 5000) [] []).writes,
         5000 :: (processorGo (some 5000) [] []).accepted⟩
    ∧ (processorGo none [] [⟨AppMessage.NewData dpA, 5000, 30, false⟩]).accepted
        = (processorGo none [] [⟨AppMessage.NewData dpA, 5000, 30, true⟩]).accepted
    ∧ (processorGo none [] [⟨AppMessage.NewData dpA, 5000, 30, false⟩]).final
        = (processorGo none [] [⟨AppMessage.NewData dpA, 5000, 30, true⟩]).final
    ∧ (processorGo none [] [⟨AppMessage.NewData dpA, 5000, 30, false⟩]).writes
        = (processorGo none [] [⟨AppMessage.NewData dpA, 5000, 30, true⟩]).writes :=
  claim_C4_persistence none ⟨AppMessage.NewData dpA, 5000, 30, false⟩ dpA []
    rfl (by decide)
    [⟨AppMessage.NewData dpA, 5000, 30, false⟩]
    [⟨AppMessage.NewData dpA, 5000, 30, true⟩] []
    (List.Forall₂.cons ⟨rfl, rfl, rfl⟩ List.Forall₂.nil)

theorem processor_newData_preceded :
    ∀ (inputs : List ProcInput) (last : Option Nat) (s : List Bool)
      (j : Nat) (dp : BleDataPoint),
      (processorGo last s inputs).outs[j]? = some (AppMessage.NewData dp) →
      ∃ i : ProcInput, i ∈ inputs ∧ i.msg = AppMessage.NewData dp ∧ 1 ≤ j ∧
        (processorGo last s inputs).outs[j-1]?
          = some (AppMessage.CsvWriteStatus i.writeOk) := by
  intro inputs
  induction inputs with
  | nil => intro last s j dp hj; simp [processorGo] at hj
  | cons i rest ih =>
    intro last s j dp hj
    cases hm : i.msg with
    | NewData d0 =>
      cases hs : shouldSave last i.nowMs i.threshold with
      | true =>
        cases hok : s.tail.headD true with
        | true =>
          simp only [processorGo, hm, hs, hok, if_true] at hj ⊢
          match j with
          | 0 => simp at hj
          | 1 =>
            simp only [List.getElem?_cons_succ, List.getElem?_cons_zero,
              Option.some.injEq] at hj
            exact ⟨i, List.mem_cons_self _ _, by rw [hm, hj], le_refl 1,
              by simp⟩
          | (k + 2) =>
            simp only [List.getElem?_cons_succ] at hj
            obtain ⟨i2, hmem, hmsg2, hk, hcsv⟩ :=
              ih (some i.nowMs) s.tail.tail k dp hj
            obtain ⟨k2, rfl⟩ : ∃ k2, k = k2 + 1 := ⟨k - 1, by omega⟩
            refine ⟨i2, List.mem_cons_of_mem _ hmem, hmsg2, by omega, ?_⟩
            simpa using hcsv
        | false =>
          simp only [processorGo, hm, hs, hok, Bool.false_eq_true, if_false] at hj ⊢
          match j with
          | 0 => simp at hj
          | 1 =>
            have hj2 : d0 = dp := by simpa using hj
            exact ⟨i, List.mem_cons_self _ _, by rw [hm, hj2], le_refl 1,
              by simp⟩
          | (k + 2) => simp at hj
      | false =>
        simp only [processorGo, hm, hs] at hj ⊢
        obtain ⟨i2, hmem, hmsg2, hk, hcsv⟩ := ih last s j dp hj
        exact ⟨i2, List.mem_cons_of_mem _ hmem, hmsg2, hk, hcsv⟩
    | StatusUpdate st =>
      cases hok : s.headD true with
      | true =>
        simp only [processorGo, hm, hok, if_true] at hj ⊢
        match j with
        | 0 => simp at hj
        | (k + 1) =>
          simp only [List.getElem?_cons_succ] at hj
          obtain ⟨i2, hmem, hmsg2, hk, hcsv⟩ := ih last s.tail k dp hj
          obtain ⟨k2, rfl⟩ : ∃ k2, k = k2 + 1 := ⟨k - 1, by omega⟩
          refine ⟨i2, List.mem_cons_of_mem _ hmem, hmsg2, by omega, ?_⟩
          simpa using hcsv
      | false =>
        simp only [processorGo, hm, hok, Bool.false_eq_true, if_false] at hj
        match j with
        | 0 => simp at hj
        | (k + 1) => simp at hj
    | CsvWriteStatus ok =>
      simp only [processorGo, hm] at hj ⊢
      obtain ⟨i2, hmem, hmsg2, hk, hcsv⟩ := ih last s j dp hj
      exact ⟨i2, List.mem_cons_of_mem _ hmem, hmsg2, hk, hcsv⟩

/-- C10: in the stage's outbound trace every `NewData` message is
immediately preceded by the `CsvWriteStatus` carrying that reading's
write outcome (so a `NewData` is never sent before its persistence
result); and a failed delivery of the `CsvWriteStatus` does not by
itself stop the stage — with oracle `false :: true :: sB` the status
send fails, yet the reading is still forwarded and processing
continues with the remaining inbound messages. -/
theorem claim_C10_persistence_order (last : Option Nat) (s : List Bool)
    (inputs : List ProcInput) (j : Nat) (dp : BleDataPoint)
    (hj : (processorGo last s inputs).outs[j]? = some (AppMessage.NewData dp))
    (lastB : Option Nat) (sB : List Bool) (iB : ProcInput) (dpB : BleDataPoint)
    (restB : List ProcInput) (hmB : iB.msg = AppMessage.NewData dpB)
    (hsB : shouldSave lastB iB.nowMs iB.threshold = true) :
    (∃ i : ProcInput, i ∈ inputs ∧ i.msg = AppMessage.NewData dp ∧ 1 ≤ j ∧
        (processorGo last s inputs).outs[j-1]?
          = some (AppMessage.CsvWriteStatus i.writeOk))
    ∧ processorGo lastB (false :: true :: sB) (iB :: restB)
        = ⟨AppMessage.CsvWriteStatus iB.writeOk :: AppMessage.NewData dpB ::
             (processorGo (some iB.nowMs) sB restB).outs,
           (processorGo (some iB.nowMs) sB restB).final,
           (dpB.tempTenths, dpB.hum) :: (processorGo (some iB.nowMs) sB restB).writes,
           iB.nowMs :: (processorGo (some iB.nowMs) sB restB).accepted⟩ := by
  refine ⟨processor_newData_preceded inputs last s j dp hj, ?_⟩
  simp [processorGo, hmB, hsB]

theorem claim_C10_witness :
    (∃ i : ProcInput, i ∈ [⟨AppMessage.NewData dpA, 5000, 0, true⟩] ∧
        i.msg = AppMessage.NewData dpA ∧ 1 ≤ 1 ∧
        (processorGo none [] [⟨AppMessage.NewData dpA, 5000, 0, true⟩]).outs[1-1]?
          = some (AppMessage.CsvWriteStatus i.writeOk))
    ∧ processorGo none (false :: true :: [])
        (⟨AppMessage.NewData dpA, 7000, 0, false⟩ ::
          [⟨AppMessage.NewData dpA, 9000, 0, true⟩])
        = ⟨AppMessage.CsvWriteStatus false :: AppMessage.NewData dpA ::
             (processorGo (some 7000) [] [⟨AppMessage.NewData dpA, 9000, 0, true⟩]).outs,
           (processorGo (some 7000) [] [⟨AppMessage.NewData dpA, 9000, 0, true⟩]).final,
           (dpA.tempTenths, dpA.hum) ::
             (processorGo (some 7000) [] [⟨AppMessage.NewData dpA, 9000, 0, true⟩]).writes,
           7000 ::
             (processorGo (some 7000) [] [⟨AppMessage.NewData dpA, 9000, 0, true⟩]).accepted⟩ :=
  claim_C10_persistence_order none [] [⟨AppMessage.NewData dpA, 5000, 0, true⟩] 1 dpA
    (by decide)
    none [] ⟨AppMessage.NewData dpA, 7000, 0, false⟩ dpA
    [⟨AppMessage.NewData dpA, 9000, 0, true⟩] rfl (by decide)

/-- C5: with all sends succeeding, a non-continuous scan window emits at
most one reading — exactly the first decodable matching event — and
leaves the Scanning state right after it (`earlyReturn`, before the
deadline); a continuous window emits every decodable matching event and
runs to the deadline (`streamEnded`), whose duration is the fixed 60
seconds in continuous mode and the configured timeout otherwise. -/
theorem claim_C5_scan_modes (cfg : Config) (events : List ScanEvent) :
    newDataOf (processEvents cfg [] events).1
      = (if cfg.continuous_mode then events.filterMap (eventReading cfg)
         else (events.filterMap (eventReading cfg)).take 1)
    ∧ (processEvents cfg [] events).2.2
      = (if cfg.continuous_mode then ScanExit.streamEnded
         else if events.filterMap (eventReading cfg) = [] then ScanExit.streamEnded
         else ScanExit.earlyReturn)
    ∧ scanDurationSecs cfg
      = (if cfg.continuous_mode then 60 else cfg.scan_timeout_secs) := by
  refine ⟨?_, ?_, rfl⟩ <;>
  · induction events with
    | nil => cases hc : cfg.continuous_mode <;> simp [processEvents, newDataOf, hc]
    | cons e rest ih =>
      cases he : eventReading cfg e with
      | none => simpa [processEvents, he] using ih
      | some d =>
        cases hc : cfg.continuous_mode with
        | true => simp_all [processEvents, newDataOf, he, hc]
        | false => simp_all [processEvents, newDataOf, he, hc]

/-- C6 as stated is false: with the consumer gone the `NewData` send of
cycle 1 fails (the window exits with `channelClosed`), yet the scan task
does not terminate — it completes the cycle (the waiting status is still
attempted) and performs a further scan cycle. -/
theorem claim_C6_counterexample :
    (processEvents cfgX [false] [evX]).2.2 = ScanExit.channelClosed
    ∧ scannerRun [true, false] [envX1, envX2]
        = [([AppMessage.StatusUpdate (scanningStatus cfgX),
             AppMessage.NewData dpX,
             AppMessage.StatusUpdate waitingStatus], 1),
           ([AppMessage.StatusUpdate adapterErrorStatus], 1)] := by decide

/-- C6 (amended): a send failure of a reading is fatal only to the
current scan window — the failing `NewData` is the window's last message
and no later event of that window is examined — but not to the scan
loop, which still completes the cycle and performs every subsequent
cycle (one cycle per environment, whatever the send oracle). -/
theorem claim_C6_amended (cfg : Config) (s : List Bool) (e : ScanEvent)
    (rest : List ScanEvent) (d : BleDataPoint)
    (hd : eventReading cfg e = some d) (hfail : s.headD true = false)
    (sB : List Bool) (envs : List CycleEnv) :
    processEvents cfg s (e :: rest)
      = ([AppMessage.NewData d], s.tail, ScanExit.channelClosed)
    ∧ (scannerRun sB envs).length = envs.length := by
  constructor
  · simp only [processEvents, hd]
    rw [hfail]
    simp
  · induction envs generalizing sB with
    | nil => simp [scannerRun]
    | cons env tl ih => simp [scannerRun, ih]

theorem claim_C6_witness :
    processEvents cfgX [false] (evX :: [])
      = ([AppMessage.NewData dpX], [], ScanExit.channelClosed)
    ∧ (scannerRun [] [envX1, envX2]).length = [envX1, envX2].length :=
  claim_C6_amended cfgX [false] evX [] dpX (by decide) (by decide) [] [envX1, envX2]

/-- C9: adapter faults never terminate the scan loop: when the manager
open fails in every cycle, the run is exactly one adapter-error status
event per cycle (n failures give n events), no reading is ever emitted,
each cycle sleeps 1 second in continuous mode and the configured pause
otherwise, and the loop stays alive through all the cycles. -/
theorem claim_C9_adapter_faults (cfg : Config) (envs : List CycleEnv)
    (s : List Bool)
    (h : ∀ env ∈ envs, env.managerOk = false ∧ env.config = cfg) :
    scannerRun s envs
      = List.replicate envs.length
          ([AppMessage.StatusUpdate adapterErrorStatus], pauseSecs cfg)
    ∧ pauseSecs cfg = (if cfg.continuous_mode then 1 else cfg.scan_pause_secs)
    ∧ ∀ p ∈ scannerRun s envs, newDataOf p.1 = [] := by
  have h1 : ∀ (envs2 : List CycleEnv) (s2 : List Bool),
      (∀ env ∈ envs2, env.managerOk = false ∧ env.config = cfg) →
      scannerRun s2 envs2
        = List.replicate envs2.length
            ([AppMessage.StatusUpdate adapterErrorStatus], pauseSecs cfg) := by
    intro envs2
    induction envs2 with
    | nil => intro s2 _; simp [scannerRun]
    | cons env tl ih =>
      intro s2 h2
      obtain ⟨hm, hcfg⟩ := h2 env (List.mem_cons_self _ _)
      have htl := ih s2.tail (fun e2 he2 => h2 e2 (List.mem_cons_of_mem _ he2))
      simp [scannerRun, scanCycle, hm, hcfg, List.replicate_succ, htl]
  refine ⟨h1 envs s h, rfl, ?_⟩
  intro p hp
  rw [h1 envs s h] at hp
  rw [List.eq_of_mem_replicate hp]
  simp [newDataOf]

theorem claim_C9_witness :
    scannerRun [] [envX2, envX2, envX2]
      = List.replicate [envX2, envX2, envX2].length
          ([AppMessage.StatusUpdate adapterErrorStatus], pauseSecs cfgX)
    ∧ pauseSecs cfgX = (if cfgX.continuous_mode then 1 else cfgX.scan_pause_secs)
    ∧ ∀ p ∈ scannerRun [] [envX2, envX2, envX2], newDataOf p.1 = [] :=
  claim_C9_adapter_faults cfgX [envX2, envX2, envX2] [] (by decide)

theorem isDigitCh_digitChar (d : Nat) : isDigitCh (digitChar d) = true := by
  match d with
  | 0 | 1 | 2 | 3 | 4 | 5 | 6 | 7 | 8 => rfl
  | (n + 9) => rfl

theorem digitVal_digitChar (d : Nat) (h : d < 10) : digitVal (digitChar d) = d := by
  interval_cases d <;> rfl

theorem isDigitCh_ne (c : Char) (h : isDigitCh c = true) :
    c ≠ ',' ∧ c ≠ '.' ∧ c ≠ '-' ∧ c ≠ '+' := by
  refine ⟨?_, ?_, ?_, ?_⟩ <;> rintro rfl <;> exact absurd h (by decide)

theorem foldr_digitChar_eq_ofDigits (ds : List Nat) (h : ∀ d ∈ ds, d < 10) (a : Nat) :
    ds.foldr (fun d acc => 10 * acc + digitVal (digitChar d)) a
      = Nat.ofDigits 10 ds + a * 10 ^ ds.length := by
  induction ds generalizing a with
  | nil => simp [Nat.ofDigits]
  | cons d tl ih =>
    have hd : d < 10 := h d (List.mem_cons_self _ _)
    have htl := fun x hx => h x (List.mem_cons_of_mem _ hx)
    simp only [List.foldr_cons, ih htl, Nat.ofDigits_cons,
      digitVal_digitChar d hd, List.length_cons]
    ring

theorem natToStr_spec (n : Nat) :
    digitsToNat (natToStr n).data = n ∧ (natToStr n).data ≠ []
      ∧ ∀ c ∈ (natToStr n).data, isDigitCh c = true := by
  by_cases h0 : n = 0
  · subst h0; exact ⟨rfl, by decide, by decide⟩
  · have hdig : ∀ d ∈ Nat.digits 10 n, d < 10 :=
      fun d hd => Nat.digits_lt_base (by norm_num) hd
    unfold natToStr
    rw [if_neg h0]
    refine ⟨?_, ?_, ?_⟩
    · show digitsToNat ((Nat.digits 10 n).map digitChar).reverse = n
      unfold digitsToNat
      rw [List.foldl_reverse, List.foldr_map]
      rw [foldr_digitChar_eq_ofDigits _ hdig 0]
      simp [Nat.ofDigits_digits]
    · show ((Nat.digits 10 n).map digitChar).reverse ≠ []
      simp [Nat.digits_ne_nil_iff_ne_zero, h0]
    · show ∀ c ∈ ((Nat.digits 10 n).map digitChar).reverse, isDigitCh c = true
      intro c hc
      rw [List.mem_reverse, List.mem_map] at hc
      obtain ⟨d, _, rfl⟩ := hc
      exact isDigitCh_digitChar d

theorem parseU8_natToStr (n : Nat) (h : n < 256) :
    parseU8 (natToStr n) = some n := by
  obtain ⟨hval, hne, hdig⟩ := natToStr_spec n
  unfold parseU8
  rw [if_pos ⟨hne, hdig⟩, hval, if_pos h]

theorem splitAtDot (ds : List Char) (h : ∀ c ∈ ds, isDigitCh c = true) (tl : List Char) :
    (ds ++ '.' :: tl).takeWhile isDigitCh = ds
    ∧ (ds ++ '.' :: tl).dropWhile isDigitCh = '.' :: tl := by
  induction ds with
  | nil =>
    have hdot : isDigitCh '.' = false := by decide
    constructor <;> simp [List.takeWhile_cons, List.dropWhile_cons, hdot]
  | cons c cs ih =>
    have hc : isDigitCh c = true := h c (List.mem_cons_self _ _)
    have ihr := ih (fun x hx => h x (List.mem_cons_of_mem _ hx))
    constructor <;>
      simp [List.takeWhile_cons, List.dropWhile_cons, hc, ihr.1, ihr.2]

theorem div_mod_tenths (n : Nat) :
    ((n / 10 : Nat) : ℚ) + ((n % 10 : Nat) : ℚ) / 10 = (n : ℚ) / 10 := by
  have h : 10 * (n / 10) + n % 10 = n := Nat.div_add_mod n 10
  have h2 : ((10 * (n / 10) + n % 10 : ℕ) : ℚ) = (n : ℚ) :=
    congrArg (fun k : ℕ => (k : ℚ)) h
  push_cast at h2
  field_simp
  linarith

theorem digitsToNat_one (a : Nat) (h : a < 10) : digitsToNat [digitChar a] = a := by
  simp [digitsToNat, digitVal_digitChar _ h]

theorem digitsToNat_two (a b : Nat) (ha : a < 10) (hb : b < 10) :
    digitsToNat [digitChar a, digitChar b] = 10 * a + b := by
  simp [digitsToNat, digitVal_digitChar _ ha, digitVal_digitChar _ hb]

theorem digitsToNat_four (a b c d : Nat) (ha : a < 10) (hb : b < 10)
    (hc : c < 10) (hd : d < 10) :
    digitsToNat [digitChar a, digitChar b, digitChar c, digitChar d]
      = 10 * (10 * (10 * a + b) + c) + d := by
  simp [digitsToNat, digitVal_digitChar _ ha, digitVal_digitChar _ hb,
    digitVal_digitChar _ hc, digitVal_digitChar _ hd]

theorem data_replaceCommaDot (s : String) :
    (replaceCommaDot s).data = s.data.map (fun c => if c = ',' then '.' else c) := rfl

theorem map_noComma_id (l : List Char) (h : ∀ c ∈ l, isDigitCh c = true) :
    l.map (fun c => if c = ',' then '.' else c) = l := by
  have h2 : ∀ c ∈ l, (if c = ',' then '.' else c) = id c :=
    fun c hc => if_neg (isDigitCh_ne c (h c hc)).1
  rw [List.map_congr_left h2, List.map_id]

theorem data_fmtTenths (t : Int) :
    (replaceCommaDot (fmtTenths t)).data
      = (if t < 0 then ['-'] else []) ++ ((natToStr (t.natAbs / 10)).data
        ++ '.' :: [digitChar (t.natAbs % 10)]) := by
  obtain ⟨hval, hne, hdig⟩ := natToStr_spec (t.natAbs / 10)
  have hmapI := map_noComma_id _ hdig
  have hmapd : (if digitChar (t.natAbs % 10) = ',' then '.' else digitChar (t.natAbs % 10))
      = digitChar (t.natAbs % 10) :=
    if_neg (isDigitCh_ne _ (isDigitCh_digitChar _)).1
  rw [data_replaceCommaDot]
  unfold fmtTenths
  by_cases ht : t < 0 <;>
    simp [ht, String.data_append, List.map_append, hmapI, hmapd]

theorem parseDecimalQ_data_shape (s : String) (neg : Bool) (I : List Char)
    (c0 : Char) (I2 : List Char) (hI : I = c0 :: I2)
    (hdig : ∀ c ∈ I, isDigitCh c = true) (d : Nat) (hd : d < 10)
    (hs : s.data = (if neg then ['-'] else []) ++ (I ++ '.' :: [digitChar d])) :
    parseDecimalQ s
      = some ((if neg then (-1 : ℚ) else 1)
          * ((digitsToNat I : ℚ) + (d : ℚ) / 10)) := by
  have hsplit := splitAtDot I hdig [digitChar d]
  have hIne : I ≠ [] := by rw [hI]; exact List.cons_ne_nil _ _
  obtain ⟨hnc, hnd, hnm, hnp⟩ :=
    isDigitCh_ne c0 (hdig c0 (by rw [hI]; exact List.mem_cons_self _ _))
  have hfold : c0 :: (I2 ++ ['.', digitChar d]) = I ++ ['.', digitChar d] := by
    rw [hI, List.cons_append]
  cases neg with
  | true =>
    unfold parseDecimalQ
    rw [hs]
    rw [hI]
    simp only [List.cons_append, List.nil_append]
    simp [hfold, hsplit.1, hsplit.2, hIne, isDigitCh_digitChar,
      digitsToNat_one d hd]
    rw [hI]
  | false =>
    have e1 : (c0 = '-') = False := by simp [hnm]
    have e2 : (c0 = '+') = False := by simp [hnp]
    unfold parseDecimalQ
    rw [hs]
    rw [hI]
    simp only [List.cons_append, List.nil_append]
    simp only [Bool.false_eq_true, if_false, List.nil_append, e1, e2,
      false_or, or_self]
    simp [hfold, hsplit.1, hsplit.2, hIne, isDigitCh_digitChar,
      digitsToNat_one d hd]
    rw [hI]

/-- The temperature round trip: formatting exact tenths with a comma,
replacing the comma by a dot and parsing back yields `t / 10` exactly. -/
theorem parseDecimalQ_fmtTenths (t : Int) :
    parseDecimalQ (replaceCommaDot (fmtTenths t)) = some ((t : ℚ) / 10) := by
  obtain ⟨hval, hne, hdig⟩ := natToStr_spec (t.natAbs / 10)
  obtain ⟨c0, I2, hI⟩ : ∃ c0 I2, (natToStr (t.natAbs / 10)).data = c0 :: I2 := by
    cases hII : (natToStr (t.natAbs / 10)).data with
    | nil => exact absurd hII hne
    | cons a b => exact ⟨a, b, rfl⟩
  have hmod : t.natAbs % 10 < 10 := Nat.mod_lt _ (by norm_num)
  have hshape := parseDecimalQ_data_shape (replaceCommaDot (fmtTenths t))
    (decide (t < 0)) _ c0 I2 hI hdig _ hmod
    (by
      rw [data_fmtTenths t]
      by_cases ht : t < 0 <;> simp [ht])
  rw [hshape, hval]
  by_cases ht : t < 0
  · have habs : ((t.natAbs : ℕ) : ℚ) = -(t : ℚ) := by
      rw [Int.cast_natAbs, abs_of_neg (by exact_mod_cast ht)]
      push_cast
      ring
    rw [if_pos (by simpa using ht)]
    rw [div_mod_tenths]
    rw [habs]
    ring_nf
  · have habs : ((t.natAbs : ℕ) : ℚ) = (t : ℚ) := by
      rw [Int.cast_natAbs, abs_of_nonneg (by exact_mod_cast not_lt.mp ht)]
    rw [if_neg (by simpa using ht)]
    rw [div_mod_tenths]
    rw [habs]
    ring_nf

theorem natToStr_data_one (n : Nat) (h : n < 10) :
    (natToStr n).data = [digitChar n] := by
  by_cases h0 : n = 0
  · subst h0; rfl
  · unfold natToStr
    rw [if_neg h0]
    show ((Nat.digits 10 n).map digitChar).reverse = _
    rw [Nat.digits_def' (by norm_num : (1:ℕ) < 10) (Nat.pos_of_ne_zero h0)]
    rw [(by omega : n / 10 = 0), Nat.digits_zero]
    rw [(by omega : n % 10 = n)]
    rfl

theorem natToStr_data_two (n : Nat) (h1 : 10 ≤ n) (h2 : n < 100) :
    (natToStr n).data = [digitChar (n / 10), digitChar (n % 10)] := by
  unfold natToStr
  rw [if_neg (by omega)]
  show ((Nat.digits 10 n).map digitChar).reverse = _
  rw [Nat.digits_def' (by norm_num : (1:ℕ) < 10) (by omega : 0 < n)]
  rw [Nat.digits_def' (by norm_num : (1:ℕ) < 10) (by omega : 0 < n / 10)]
  rw [(by omega : n / 10 / 10 = 0), Nat.digits_zero]
  rw [(by omega : n / 10 % 10 = n / 10)]
  rfl

theorem natToStr_data_three (n : Nat) (h1 : 100 ≤ n) (h2 : n < 1000) :
    (natToStr n).data
      = [digitChar (n / 100), digitChar (n / 10 % 10), digitChar (n % 10)] := by
  unfold natToStr
  rw [if_neg (by omega)]
  show ((Nat.digits 10 n).map digitChar).reverse = _
  rw [Nat.digits_def' (by norm_num : (1:ℕ) < 10) (by omega : 0 < n)]
  rw [Nat.digits_def' (by norm_num : (1:ℕ) < 10) (by omega : 0 < n / 10)]
  rw [(by omega : n / 10 / 10 = n / 100)]
  rw [Nat.digits_def' (by norm_num : (1:ℕ) < 10) (by omega : 0 < n / 100)]
  rw [(by omega : n / 100 / 10 = 0), Nat.digits_zero]
  rw [(by omega : n / 100 % 10 = n / 100)]
  rfl

theorem natToStr_data_four (n : Nat) (h1 : 1000 ≤ n) (h2 : n < 10000) :
    (natToStr n).data
      = [digitChar (n / 1000), digitChar (n / 100 % 10),
         digitChar (n / 10 % 10), digitChar (n % 10)] := by
  unfold natToStr
  rw [if_neg (by omega)]
  show ((Nat.digits 10 n).map digitChar).reverse = _
  rw [Nat.digits_def' (by norm_num : (1:ℕ) < 10) (by omega : 0 < n)]
  rw [Nat.digits_def' (by norm_num : (1:ℕ) < 10) (by omega : 0 < n / 10)]
  rw [(by omega : n / 10 / 10 = n / 100)]
  rw [Nat.digits_def' (by norm_num : (1:ℕ) < 10) (by omega : 0 < n / 100)]
  rw [(by omega : n / 100 / 10 = n / 1000)]
  rw [Nat.digits_def' (by norm_num : (1:ℕ) < 10) (by omega : 0 < n / 1000)]
  rw [(by omega : n / 1000 / 10 = 0), Nat.digits_zero]
  rw [(by omega : n / 1000 % 10 = n / 1000)]
  rw [(by omega : n / 100 % 10 = n / 100 % 10)]
  rfl

theorem pad2_data (n : Nat) (h : n < 100) :
    (pad2 n).data = [digitChar (n / 10), digitChar (n % 10)] := by
  by_cases h10 : n < 10
  · unfold pad2
    rw [if_pos h10, String.data_append, natToStr_data_one n h10]
    rw [(by omega : n / 10 = 0), (by omega : n % 10 = n)]
    rfl
  · unfold pad2
    rw [if_neg h10, natToStr_data_two n (by omega) h]

theorem pad4_data (n : Nat) (h : n < 10000) :
    (pad4 n).data
      = [digitChar (n / 1000), digitChar (n / 100 % 10),
         digitChar (n / 10 % 10), digitChar (n % 10)] := by
  unfold pad4
  by_cases ha : n < 10
  · rw [if_pos ha, String.data_append, natToStr_data_one n ha]
    rw [(by omega : n / 1000 = 0), (by omega : n / 100 % 10 = 0),
      (by omega : n / 10 % 10 = 0), (by omega : n % 10 = n)]
    rfl
  · rw [if_neg ha]
    by_cases hb : n < 100
    · rw [if_pos hb, String.data_append, natToStr_data_two n (by omega) hb]
      rw [(by omega : n / 1000 = 0), (by omega : n / 100 % 10 = 0)]
      rw [(by omega : n / 10 % 10 = n / 10)]
      rfl
    · rw [if_neg hb]
      by_cases hc : n < 1000
      · rw [if_pos hc, String.data_append, natToStr_data_three n (by omega) hc]
        rw [(by omega : n / 1000 = 0), (by omega : n / 100 % 10 = n / 100)]
        rfl
      · rw [if_neg hc, natToStr_data_four n (by omega) h]

theorem parseDateTime_fmt (tm : LocalTime) (hv : tm.Valid) :
    parseDateTime (fmtDate tm ++ " " ++ fmtTime tm) = some tm := by
  obtain ⟨y, mo, da, ho, mi, se⟩ := tm
  obtain ⟨hy, hm1, hm2, hd1, hd2, hh, hmi, hs⟩ := hv
  dsimp only at hy hm1 hm2 hd1 hd2 hh hmi hs
  have hdata : (fmtDate ⟨y, mo, da, ho, mi, se⟩ ++ " "
        ++ fmtTime ⟨y, mo, da, ho, mi, se⟩).data
      = [digitChar (y / 1000), digitChar (y / 100 % 10), digitChar (y / 10 % 10),
         digitChar (y % 10), '.', digitChar (mo / 10), digitChar (mo % 10), '.',
         digitChar (da / 10), digitChar (da % 10), ' ',
         digitChar (ho / 10), digitChar (ho % 10), ':',
         digitChar (mi / 10), digitChar (mi % 10), ':',
         digitChar (se / 10), digitChar (se % 10)] := by
    simp only [fmtDate, fmtTime, String.data_append]
    rw [pad4_data y (by omega), pad2_data mo (by omega), pad2_data da (by omega),
      pad2_data ho (by omega), pad2_data mi (by omega), pad2_data se (by omega)]
    rfl
  have e1 : digitsToNat [digitChar (y / 1000), digitChar (y / 100 % 10),
        digitChar (y / 10 % 10), digitChar (y % 10)]
      = 10 * (10 * (10 * (y / 1000) + y / 100 % 10) + y / 10 % 10) + y % 10 :=
    digitsToNat_four _ _ _ _ (by omega) (by omega) (by omega) (by omega)
  have e2 : digitsToNat [digitChar (mo / 10), digitChar (mo % 10)]
      = 10 * (mo / 10) + mo % 10 := digitsToNat_two _ _ (by omega) (by omega)
  have e3 : digitsToNat [digitChar (da / 10), digitChar (da % 10)]
      = 10 * (da / 10) + da % 10 := digitsToNat_two _ _ (by omega) (by omega)
  have e4 : digitsToNat [digitChar (ho / 10), digitChar (ho % 10)]
      = 10 * (ho / 10) + ho % 10 := digitsToNat_two _ _ (by omega) (by omega)
  have e5 : digitsToNat [digitChar (mi / 10), digitChar (mi % 10)]
      = 10 * (mi / 10) + mi % 10 := digitsToNat_two _ _ (by omega) (by omega)
  have e6 : digitsToNat [digitChar (se / 10), digitChar (se % 10)]
      = 10 * (se / 10) + se % 10 := digitsToNat_two _ _ (by omega) (by omega)
  have f1 : 10 * (10 * (10 * (y / 1000) + y / 100 % 10) + y / 10 % 10) + y % 10 = y := by
    omega
  have f2 : 10 * (mo / 10) + mo % 10 = mo := by omega
  have f3 : 10 * (da / 10) + da % 10 = da := by omega
  have f4 : 10 * (ho / 10) + ho % 10 = ho := by omega
  have f5 : 10 * (mi / 10) + mi % 10 = mi := by omega
  have f6 : 10 * (se / 10) + se % 10 = se := by omega
  unfold parseDateTime
  rw [hdata]
  simp [isDigitCh_digitChar, e1, e2, e3, e4, e5, e6, f1, f2, f3, f4, f5, f6,
    hm1, hm2, hd1, hd2, hh, hmi, hs]

theorem loadRow_logRecord (tm : LocalTime) (hv : tm.Valid) (t : Int) (h : Nat)
    (hh : h < 256) :
    loadRow (logRecord tm t h) = some ⟨tm, (t : ℚ) / 10, h⟩ := by
  unfold loadRow logRecord
  simp only [List.getElem?_cons_zero, List.getElem?_cons_succ]
  rw [parseDateTime_fmt tm hv]
  rw [parseDecimalQ_fmtTenths t, parseU8_natToStr h hh]

theorem processor_writes_length :
    ∀ (inputs : List ProcInput) (last : Option Nat) (s : List Bool),
      (processorGo last s inputs).writes.length
        = (processorGo last s inputs).accepted.length := by
  intro inputs
  induction inputs with
  | nil => intro last s; simp [processorGo]
  | cons i rest ih =>
    intro last s
    cases hm : i.msg with
    | NewData dp =>
      cases hs : shouldSave last i.nowMs i.threshold with
      | true =>
        cases hok : s.tail.headD true with
        | true => simp only [processorGo, hm, hs, hok, if_true]; simp [ih]
        | false =>
          simp only [processorGo, hm, hs, hok, Bool.false_eq_true, if_false]
          simp
      | false =>
        simp only [processorGo, hm, hs, Bool.false_eq_true, if_false]
        exact ih last s
    | StatusUpdate st =>
      cases hok : s.headD true with
      | true => simp only [processorGo, hm, hok, if_true]; simp [ih]
      | false =>
        simp only [processorGo, hm, hok, Bool.false_eq_true, if_false]
        rfl
    | CsvWriteStatus ok =>
      simp only [processorGo, hm]
      exact ih last s

theorem comma_mem_fmtTenths (t : Int) : ',' ∈ (fmtTenths t).data := by
  have hc : ("," : String).data = [','] := rfl
  unfold fmtTenths
  simp [String.data_append, hc]

theorem logRecord_ne_csvHeader (tm : LocalTime) (t : Int) (h : Nat) :
    logRecord tm t h ≠ csvHeader := by
  intro he
  have h2 := congrArg (fun l => l[2]?) he
  simp only [logRecord, csvHeader, List.getElem?_cons_zero,
    List.getElem?_cons_succ, Option.some.injEq] at h2
  have h3 := comma_mem_fmtTenths t
  rw [h2] at h3
  exact absurd h3 (by decide)

/-- Claim C7 as stated is false on one point: the header record the code
writes on first creation is the Czech `Datum;Cas;Teplota;Vlhkost`, not
`Date;Time;Temperature;Humidity`. -/
theorem claim_C7_counterexample :
    (log_to_csv none tmW (-235) 45)[0]?
      ≠ some ["Date", "Time", "Temperature", "Humidity"] := by decide

/-- Claim C7 (amended): the daily log file, named from the local date
(`log_%Y-%m-%d.csv`), gets the semicolon-delimited header
`Datum;Cas;Teplota;Vlhkost` exactly once, on first creation only, and
every accepted reading appends exactly one record
`YYYY.MM.DD;HH:MM:SS;<temperature, one decimal, comma separator>;<humidity>`
(one `log_to_csv` call per accepted reading); an existing file is only
ever extended, never rewritten. -/
theorem claim_C7_log_format (tm : LocalTime) (t : Int) (h : Nat)
    (rows : List (List String)) (inputs : List ProcInput) :
    log_to_csv none tm t h = [csvHeader, logRecord tm t h]
    ∧ csvHeader = ["Datum", "Cas", "Teplota", "Vlhkost"]
    ∧ log_to_csv (some rows) tm t h = rows ++ [logRecord tm t h]
    ∧ logRecord tm t h = [fmtDate tm, fmtTime tm, fmtTenths t, natToStr h]
    ∧ (log_to_csv none tm t h).count csvHeader = 1
    ∧ (log_to_csv (some rows) tm t h).count csvHeader = rows.count csvHeader
    ∧ get_daily_log_filename tm
        = "log_" ++ pad4 tm.year ++ "-" ++ pad2 tm.month ++ "-" ++ pad2 tm.day ++ ".csv"
    ∧ ∀ (last : Option Nat) (s : List Bool),
        (processorGo last s inputs).writes.length
          = (processorGo last s inputs).accepted.length := by
  have hne := logRecord_ne_csvHeader tm t h
  refine ⟨rfl, rfl, rfl, rfl, ?_, ?_, rfl, fun last s => processor_writes_length inputs last s⟩
  · simp [log_to_csv, List.count_cons, hne]
  · simp [log_to_csv, List.count_append, List.count_cons, hne]

/-- Claim C8: a reading accepted and written to the daily log, then
parsed back by the history-loading routine, reproduces a history point
with the same temperature (exact tenths, hence equal to one decimal
place) and the same humidity. -/
theorem claim_C8_roundtrip (tm : LocalTime) (hv : tm.Valid) (t : Int) (h : Nat)
    (hh : h < 256) (cfg : Config) (hall : cfg.load_all_history = true) :
    loadRow (logRecord tm t h) = some ⟨tm, (t : ℚ) / 10, h⟩
    ∧ load_history_from_csv cfg (log_to_csv none tm t h)
        = [⟨tm, (t : ℚ) / 10, h⟩] := by
  have h1 := loadRow_logRecord tm hv t h hh
  refine ⟨h1, ?_⟩
  unfold load_history_from_csv log_to_csv
  simp [hall, h1]

theorem claim_C8_witness :
    loadRow (logRecord tmW (-235) 45) = some ⟨tmW, ((-235 : ℤ) : ℚ) / 10, 45⟩
    ∧ load_history_from_csv cfgX (log_to_csv none tmW (-235) 45)
        = [⟨tmW, ((-235 : ℤ) : ℚ) / 10, 45⟩] :=
  claim_C8_roundtrip tmW (by decide) (-235) 45 (by decide) cfgX rfl

end TP357
